import Mathlib

/-!
Verification of the tag-extraction core of the tapeworm repository.

The Rust sources are shallowly embedded over `List Char`: pure string
functions from `src/util.rs` and `src/tag.rs` become Lean functions, the
regex patterns of `RegexConfig::default` (src/tag.rs:15-42) are embedded
as deterministic leftmost-first matchers, and the artist-assembly and
track-parsing statements of the interactive loop in `tag` (src/tag.rs)
are embedded as explicit state-passing functions.
-/

namespace Tapeworm

/-- Unicode White_Space, as used by Rust `str::trim` and the regex class
so that trimming and the separator patterns agree on whitespace. -/
def isWs (c : Char) : Bool :=
  c = ' ' ∨ c = '\t' ∨ c = '\n' ∨ c.toNat = 11 ∨ c.toNat = 12 ∨ c = '\r' ∨
  c.toNat = 133 ∨ c.toNat = 160 ∨ c.toNat = 5760 ∨
  (8192 ≤ c.toNat ∧ c.toNat ≤ 8202) ∨ c.toNat = 8232 ∨ c.toNat = 8233 ∨
  c.toNat = 8239 ∨ c.toNat = 8287 ∨ c.toNat = 12288

/-- ASCII lower-casing, used to embed the `(?i)` flag of the patterns. -/
def lowc (c : Char) : Char :=
  if 'A' ≤ c ∧ c ≤ 'Z' then Char.ofNat (c.toNat + 32) else c

/-- Lower-case a word, embedding Rust `str::to_lowercase` on the ASCII
values this code compares (src/tag.rs:434). -/
def lowerL (l : List Char) : List Char := l.map lowc

/-- ASCII decimal digit, embedding the regex class for the digits this
code captures. -/
def isDigitA (c : Char) : Bool := '0' ≤ c ∧ c ≤ '9'

/-- The apostrophe character, written numerically. -/
def apos : Char := Char.ofNat 39

/-- Rust `str::trim`: drop leading and trailing whitespace. -/
def trimL (l : List Char) : List Char :=
  ((l.dropWhile isWs).reverse.dropWhile isWs).reverse

/-- Exact prefix test for char lists. -/
def leadsWith : List Char → List Char → Bool
  | [], _ => true
  | _ :: _, [] => false
  | p :: ps, c :: cs => (p = c) && leadsWith ps cs

/-- Case-insensitive (ASCII) prefix test, for the `(?i)` patterns. -/
def startsWithCI : List Char → List Char → Bool
  | [], _ => true
  | _ :: _, [] => false
  | p :: ps, c :: cs => (lowc p = lowc c) && startsWithCI ps cs

/-- Case-insensitive containment of `kw` in a char list. -/
def containsCI (kw : List Char) : List Char → Bool
  | [] => startsWithCI kw []
  | c :: t => startsWithCI kw (c :: t) || containsCI kw t

/-- Exact (case-sensitive) containment: `t` occurs somewhere in the list. -/
def occursIn (t : List Char) : List Char → Bool
  | [] => leadsWith t []
  | c :: r => leadsWith t (c :: r) || occursIn t r

/-- One left-to-right pass removing every non-overlapping occurrence of
`t`, exactly what `s.split(to_remove)` followed by concatenation does in
`remove_str_from_string` (src/util.rs:161-164). `fuel` is an upper bound
on the recursion depth; `s.length + 1` always suffices. -/
def stripOccF (t : List Char) : Nat → List Char → List Char
  | _, [] => []
  | 0, s => s
  | fuel + 1, c :: rest =>
    if t ≠ [] ∧ leadsWith t (c :: rest) = true then
      stripOccF t fuel ((c :: rest).drop t.length)
    else
      c :: stripOccF t fuel rest

/-- `util::remove_str_from_string` (src/util.rs:161-164): remove every
(leftmost, non-overlapping) occurrence of `t` from `s`, then trim. -/
def remove_str_from_string (s t : List Char) : List Char :=
  trimL (stripOccF t (s.length + 1) s)

/-- `util::remove_brackets` (src/util.rs:167-177): trim, drop at most one
leading opening bracket and one trailing closing bracket, trim again. -/
def remove_brackets (s : List Char) : List Char :=
  let s := trimL s
  let openingHead : Bool :=
    match s with
    | c :: _ => c = '(' ∨ c = '[' ∨ c.toNat = 123 ∨ c = '<' ∨ c = '【'
    | [] => false
  let closingLast : Bool :=
    match s.getLast? with
    | some c => c = ')' ∨ c = ']' ∨ c.toNat = 125 ∨ c = '>' ∨ c = '】'
    | none => false
  let s1 := if openingHead then s.drop 1 else s
  let s2 := if closingLast then s1.dropLast else s1
  trimL s2

/-- Matching empty bracket pair, per the table in
`util::remove_empty_brackets` (src/util.rs:202). -/
def isPairBr (a b : Char) : Bool :=
  (a = '(' ∧ b = ')') ∨ (a = '[' ∧ b = ']') ∨
  (a.toNat = 123 ∧ b.toNat = 125) ∨ (a = '<' ∧ b = '>')

/-- One sliding-window pass of `util::remove_empty_brackets`
(src/util.rs:180-219): delete adjacent matching pairs left to right. -/
def onePass : List Char → List Char
  | [] => []
  | [c] => [c]
  | a :: b :: rest =>
    if isPairBr a b then onePass rest else a :: onePass (b :: rest)

/-- `util::remove_empty_brackets` (src/util.rs:180-226): repeat the pass
until nothing shrinks (src/util.rs:221-225). -/
def remove_empty_brackets (s : List Char) : List Char :=
  if h : (onePass s).length < s.length then
    remove_empty_brackets (onePass s)
  else
    onePass s
termination_by s.length
decreasing_by exact h

/-- The state-carrying loop of `util::remove_duplicate_whitespace`
(src/util.rs:229-242): skip a space whose predecessor was a space. -/
def collapseWS (prev : Bool) : List Char → List Char
  | [] => []
  | c :: rest =>
    if (c == ' ') && prev then collapseWS prev rest
    else c :: collapseWS (c == ' ') rest

/-- `util::remove_duplicate_whitespace` (src/util.rs:229-242). -/
def remove_duplicate_whitespace (s : List Char) : List Char :=
  collapseWS false s

/-! ### The artist separator, `RegexConfig::author_separator`
`(?i)(\s(x|and)\s|(^|\s)(feat(uring|\.)?|ft\.?|w[⧸/])|&|,|，)` at
src/tag.rs:18-21, embedded as a leftmost-first matcher. -/

/-- Length matched by the word alternation
`feat(uring|\.)?|ft\.?|w[⧸/]` at the head of `r` (preference order of
the pattern: longer optional suffixes first). -/
def connWord (r : List Char) : Option Nat :=
  if startsWithCI ("featuring".toList) r then some 9
  else if startsWithCI ("feat.".toList) r then some 5
  else if startsWithCI ("feat".toList) r then some 4
  else if startsWithCI ("ft.".toList) r then some 3
  else if startsWithCI ("ft".toList) r then some 2
  else
    match r with
    | c :: d :: _ => if lowc c = 'w' ∧ (d = '⧸' ∨ d = '/') then some 2 else none
    | _ => none

/-- Length matched by the full separator alternation at the head of `s`;
`atStart` tells whether the current position is the start of the
haystack (for the `^` alternative). Branches are tried in pattern
order. -/
def sepMatch (atStart : Bool) (s : List Char) : Option Nat :=
  (match s with
   | c :: rest =>
     if isWs c then
       if startsWithCI ['x'] rest then
         match rest.drop 1 with
         | w :: _ => if isWs w then some 3 else none
         | [] => none
       else if startsWithCI ("and".toList) rest then
         match rest.drop 3 with
         | w :: _ => if isWs w then some 5 else none
         | [] => none
       else none
     else none
   | [] => none)
  <|>
  (if atStart then connWord s else none)
  <|>
  (match s with
   | c :: rest => if isWs c then (connWord rest).map (· + 1) else none
   | [] => none)
  <|>
  (match s with
   | c :: _ => if c = '&' ∨ c = ',' ∨ c = '，' then some 1 else none
   | [] => none)

/-- `Regex::split` driven by `sepMatch`: scan left to right, cutting a
piece at every match. `fuel` bounds recursion; `length + 1` suffices. -/
def splitSepF : Nat → Bool → List Char → List Char → List (List Char)
  | 0, _, acc, s => [acc.reverse ++ s]
  | _ + 1, _, acc, [] => [acc.reverse]
  | fuel + 1, atStart, acc, c :: rest =>
    match sepMatch atStart (c :: rest) with
    | some n => acc.reverse :: splitSepF fuel false [] ((c :: rest).drop n)
    | none => splitSepF fuel false (c :: acc) rest

/-- `separate_authors` (src/tag.rs:299-305): split on the separator
regex and trim each fragment. Empty fragments are kept, exactly as the
source's `map(|a| a.trim().to_string()).collect()` keeps them. -/
def separate_authors (s : List Char) : List (List Char) :=
  (splitSepF (s.length + 1) true [] s).map (fun a => trimL a)

/-! ### Title format matchers, `RegexConfig::title_formats`
(src/tag.rs:22-30), each anchored `^...$`, tried in order with the first
capturing format winning (src/tag.rs:385-409). -/

/-- Captures produced by one title format. -/
structure FmtCaps where
  genre : Option (List Char)
  artists : Option (List Char)
  title : Option (List Char)
  track_no : Option (List Char)
  extra : Option (List Char)
deriving DecidableEq

/-- Format 1: `^「(?<genre>[^」]+)」\[(?<artists>[^\]]+)\]\s(?<title>.+)$`
(src/tag.rs:24). -/
def fmt1 (s : List Char) : Option FmtCaps :=
  match s with
  | c :: rest =>
    if c = '「' then
      let g := rest.takeWhile (fun x => x ≠ '」')
      match g, rest.drop g.length with
      | _ :: _, '」' :: '[' :: r2 =>
        let a := r2.takeWhile (fun x => x ≠ ']')
        match a, r2.drop a.length with
        | _ :: _, ']' :: w :: r4 =>
          if isWs w ∧ r4 ≠ [] ∧ r4.all (fun x => x ≠ '\n') then
            some ⟨some g, some a, some r4, none, none⟩
          else none
        | _, _ => none
      | _, _ => none
    else none
  | [] => none

/-- Format 2:
`^(?<artists>[^'‘]+)\s['‘](?<title>[^'’]+)['’](?<extra>.+)?$`
(src/tag.rs:26). The artists run is maximal up to the first straight or
curly opening quote; backtracking forces the quote right after a single
whitespace character. -/
def fmt2 (s : List Char) : Option FmtCaps :=
  let isQ1 : Char → Bool := fun c => c = apos ∨ c = '‘'
  let a := s.takeWhile (fun c => ¬ isQ1 c)
  let m := a.length
  if 2 ≤ m ∧ m < s.length ∧ isWs (a.getLastD ' ') then
    let r := s.drop (m + 1)
    let t := r.takeWhile (fun c => ¬ (c = apos ∨ c = '’'))
    if t ≠ [] ∧ t.length < r.length then
      let extra := r.drop (t.length + 1)
      if extra = [] then
        some ⟨none, some (s.take (m - 1)), some t, none, none⟩
      else if extra.all (fun x => x ≠ '\n') then
        some ⟨none, some (s.take (m - 1)), some t, none, some extra⟩
      else none
    else none
  else none

/-- Separator class `[-_~｜]` of format 3 (src/tag.rs:28). -/
def isSep3 (c : Char) : Bool := c = '-' ∨ c = '_' ∨ c = '~' ∨ c = '｜'

/-- The `(?<artists>[^-_~｜]+)[-_~｜](?<title>.+)$` tail of format 3:
artists is the maximal separator-free run, then one separator, then a
non-empty remainder free of newlines (`.` excludes `\n`). -/
def fmt3rest (r : List Char) : Option (List Char × List Char) :=
  let a := r.takeWhile (fun c => ¬ isSep3 c)
  if a = [] then none
  else
    match r.drop a.length with
    | _ :: t => if t ≠ [] ∧ t.all (fun x => x ≠ '\n') then some (a, t) else none
    | [] => none

/-- Format 3: `^(?<track_no>\d+\.)?(?<artists>[^-_~｜]+)[-_~｜](?<title>.+)$`
(src/tag.rs:28-29); the optional greedy track group is preferred, and
on failure of the remainder the engine retries with the group empty. -/
def fmt3 (s : List Char) : Option FmtCaps :=
  let ds := s.takeWhile isDigitA
  let withTrack : Option FmtCaps :=
    if ds ≠ [] then
      match s.drop ds.length with
      | '.' :: r =>
        (fmt3rest r).map (fun p =>
          ⟨none, some p.1, some p.2, some (ds ++ ['.']), none⟩)
      | _ => none
    else none
  match withTrack with
  | some caps => some caps
  | none => (fmt3rest s).map (fun p => ⟨none, some p.1, some p.2, none, none⟩)

/-- The format loop of `build_tags` (src/tag.rs:385-409): first format
whose `from_format` captures anything wins. -/
def firstFormat (s : List Char) : Option FmtCaps :=
  fmt1 s <|> fmt2 s <|> fmt3 s

/-! ### The catch-all extractor, `RegexConfig::catch_all`
(src/tag.rs:31-39): one `(?xi)` alternation with named groups `feat`,
`year`, `remix`, `album` (with inner `album_rmv`) and `strip`, applied
with `captures_iter` over the running `meta_title`
(src/tag.rs:411-455). -/

/-- One capture of the catch-all alternation. -/
inductive Cap where
  | feat : List Char → Cap
  | year : List Char → Cap
  | remix : List Char → Cap
  | album : List Char → List Char → Cap
  | strp : List Char → Cap
deriving DecidableEq

/-- The connector alternation of the `feat` group,
`\sand\s|feat(uring|\.)?|ft\.?|w[⧸/]` (src/tag.rs:33) — unlike the
author separator it has no `^|\s` guard before the words. -/
def connAt (r : List Char) : Option Nat :=
  (match r with
   | c :: rest =>
     if isWs c ∧ startsWithCI ("and".toList) rest then
       match rest.drop 3 with
       | w :: _ => if isWs w then some 5 else none
       | [] => none
     else none
   | [] => none)
  <|> connWord r

/-- The `feat` group: a parenthesized connector clause
`\((conn)[^\)]*\)` or a bare one `(conn)[^\(\)]*`. Returns the matched
length. -/
def featAt (r : List Char) : Option Nat :=
  (match r with
   | '(' :: r1 =>
     match connAt r1 with
     | some k =>
       let inner := (r1.drop k).takeWhile (fun c => c ≠ ')')
       match (r1.drop k).drop inner.length with
       | ')' :: _ => some (1 + k + inner.length + 1)
       | _ => none
     | none => none
   | _ => none)
  <|>
  (match connAt r with
   | some k =>
     let t := (r.drop k).takeWhile (fun c => c ≠ '(' ∧ c ≠ ')')
     some (k + t.length)
   | none => none)

/-- The `year` group `\(\d{4}\)|\d{4}` (src/tag.rs:34). -/
def yearAt (r : List Char) : Option Nat :=
  (match r with
   | '(' :: a :: b :: c :: d :: ')' :: _ =>
     if isDigitA a ∧ isDigitA b ∧ isDigitA c ∧ isDigitA d then some 6 else none
   | _ => none)
  <|>
  (match r with
   | a :: b :: c :: d :: _ =>
     if isDigitA a ∧ isDigitA b ∧ isDigitA c ∧ isDigitA d then some 4 else none
   | _ => none)

/-- Any of the eight bracket characters excluded inside a `remix` or
`strip` bracket, `[^\[\](){}<>]`. -/
def isBr8 (c : Char) : Bool :=
  c = '[' ∨ c = ']' ∨ c = '(' ∨ c = ')' ∨ c.toNat = 123 ∨ c.toNat = 125 ∨
  c = '<' ∨ c = '>'

/-- The keyword alternation of the `remix` group,
`cut|edit|extend(ed)?(\smix)?|(re)?mix|remaster|bootleg|instrumental`:
the bracket interior matches iff it contains one of the mandatory cores
case-insensitively. -/
def remixKw (inner : List Char) : Bool :=
  containsCI ("cut".toList) inner || containsCI ("edit".toList) inner ||
  containsCI ("extend".toList) inner || containsCI ("mix".toList) inner ||
  containsCI ("remaster".toList) inner || containsCI ("bootleg".toList) inner ||
  containsCI ("instrumental".toList) inner

/-- The `remix` group (src/tag.rs:35): an opening bracket, a
bracket-free interior containing a remix keyword, and a closing
bracket. -/
def remixAt (r : List Char) : Option Nat :=
  match r with
  | c :: r1 =>
    if c = '[' ∨ c = '(' ∨ c.toNat = 123 ∨ c = '<' then
      let inner := r1.takeWhile (fun x => ¬ isBr8 x)
      match r1.drop inner.length with
      | d :: _ =>
        if (d = ']' ∨ d = ')' ∨ d.toNat = 125 ∨ d = '>') ∧ remixKw inner then
          some (1 + inner.length + 1)
        else none
      | [] => none
    else none
  | [] => none

/-- Bracket characters excluded inside an `album` bracket,
`[^\[\]\(\)【】]` (curly braces and angle brackets are allowed there). -/
def isBrAlb (c : Char) : Bool :=
  c = '[' ∨ c = ']' ∨ c = '(' ∨ c = ')' ∨ c = '【' ∨ c = '】'

/-- Does the `album_rmv` marker `F.C` (any non-newline middle character,
case-insensitive) start at the head of `l`? -/
def fxcAt (l : List Char) : Bool :=
  match l with
  | f :: m :: c :: _ => lowc f = 'f' ∧ m ≠ '\n' ∧ lowc c = 'c'
  | _ => false

/-- Index of the last `F.C` occurrence in `l`; the greedy run before
`album_rmv` makes the engine capture the last one. -/
def lastFxC (l : List Char) : Option Nat :=
  ((List.range l.length).filter (fun p => fxcAt (l.drop p))).getLast?

/-- The `album` group
`[\[\(【][^\[\]\(\)【】]*(?<album_rmv>F.C)[^\[\]\(\)【】]*[\]\)】]`
(src/tag.rs:36). Returns the matched length and the `album_rmv`
capture. -/
def albumAt (r : List Char) : Option (Nat × List Char) :=
  match r with
  | c :: r1 =>
    if c = '[' ∨ c = '(' ∨ c = '【' then
      let inner := r1.takeWhile (fun x => ¬ isBrAlb x)
      match r1.drop inner.length with
      | d :: _ =>
        if d = ']' ∨ d = ')' ∨ d = '】' then
          match lastFxC inner with
          | some p => some (1 + inner.length + 1, (inner.drop p).take 3)
          | none => none
        else none
      | [] => none
    else none
  | [] => none

/-- Does `full\sversion` start at the head of `l`? -/
def fullVerAt (l : List Char) : Bool :=
  startsWithCI ("full".toList) l &&
    (match l.drop 4 with
     | w :: rest => isWs w && startsWithCI ("version".toList) rest
     | [] => false)

/-- Containment of `full\sversion`. -/
def containsFullVer : List Char → Bool
  | [] => false
  | c :: t => fullVerAt (c :: t) || containsFullVer t

/-- The keyword alternation of the `strip` group,
`full\sversion|(official\s)?((music\s)?video|audio)|m/?v|hq|hd`
(src/tag.rs:37): mandatory cores only, case-insensitively. -/
def stripKw (inner : List Char) : Bool :=
  containsFullVer inner || containsCI ("video".toList) inner ||
  containsCI ("audio".toList) inner || containsCI ("mv".toList) inner ||
  containsCI ("m/v".toList) inner || containsCI ("hq".toList) inner ||
  containsCI ("hd".toList) inner

/-- The `strip` group (src/tag.rs:37): same bracket shape as `remix`
with the junk keyword set. -/
def stripAt (r : List Char) : Option Nat :=
  match r with
  | c :: r1 =>
    if c = '[' ∨ c = '(' ∨ c.toNat = 123 ∨ c = '<' then
      let inner := r1.takeWhile (fun x => ¬ isBr8 x)
      match r1.drop inner.length with
      | d :: _ =>
        if (d = ']' ∨ d = ')' ∨ d.toNat = 125 ∨ d = '>') ∧ stripKw inner then
          some (1 + inner.length + 1)
        else none
      | [] => none
    else none
  | [] => none

/-- Try the five alternatives, in pattern order, at the current
position. -/
def capAt (r : List Char) : Option (Nat × Cap) :=
  match featAt r with
  | some n => some (n, Cap.feat (r.take n))
  | none =>
    match yearAt r with
    | some n => some (n, Cap.year (r.take n))
    | none =>
      match remixAt r with
      | some n => some (n, Cap.remix (r.take n))
      | none =>
        match albumAt r with
        | some p => some (p.1, Cap.album (r.take p.1) p.2)
        | none =>
          match stripAt r with
          | some n => some (n, Cap.strp (r.take n))
          | none => none

/-- `captures_iter`: successive leftmost-first non-overlapping matches.
`fuel` bounds recursion; `length + 1` suffices (every match is at least
one character long). -/
def capScanF : Nat → List Char → List Cap
  | 0, _ => []
  | _ + 1, [] => []
  | fuel + 1, c :: rest =>
    match capAt (c :: rest) with
    | some p => p.2 :: capScanF fuel ((c :: rest).drop p.1)
    | none => capScanF fuel rest

/-- All catch-all captures over a haystack, in order. -/
def capScan (s : List Char) : List Cap :=
  capScanF (s.length + 1) s

/-! ### `build_tags` (src/tag.rs:364-471). -/

/-- The mutable state threaded through `build_tags`: the running track
title, the accumulated author vector, and the tag map entries filled so
far. -/
structure BTSt where
  title : List Char
  author : List (List Char)
  genre : Option (List Char)
  year : Option (List Char)
  remix : Option (List Char)
  album : Option (List Char)
  track_no : Option (List Char)
deriving DecidableEq

/-- The resulting tag map of `build_tags` (a `HashMap` in the source,
with the fixed key set used by `tag`). -/
structure Tags where
  genre : Option (List Char)
  track_no : Option (List Char)
  author : Option (List Char)
  title : Option (List Char)
  year : Option (List Char)
  remix : Option (List Char)
  album : Option (List Char)
deriving DecidableEq

/-- The body of the `captures_iter` loop (src/tag.rs:411-455): each
named capture removes its matched text from the running title and
records its value. -/
def capStep (st : BTSt) (cap : Cap) : BTSt :=
  match cap with
  | Cap.feat f =>
    let t := remove_str_from_string st.title f
    let f2 := remove_brackets f
    { st with title := t, author := st.author ++ (separate_authors f2).drop 1 }
  | Cap.year y =>
    { st with title := remove_str_from_string st.title y,
              year := some (remove_brackets y) }
  | Cap.remix r =>
    let t := remove_str_from_string st.title r
    let r2 := remove_brackets r
    if lowerL r2 = ("original mix".toList) then { st with title := t }
    else { st with title := t, remix := some r2 }
  | Cap.album a rmv =>
    let t := remove_str_from_string st.title a
    let a2 := remove_str_from_string a rmv
    { st with title := t, album := some (remove_brackets a2) }
  | Cap.strp x =>
    { st with title := remove_str_from_string st.title x }

/-- The per-format processing of the format loop (src/tag.rs:386-408):
record genre, strip and record the track number, split and accumulate
artists, and replace the running title (and `meta_title`) by the
trimmed captured title plus trimmed extra. Returns the new state and
the new `meta_title`. -/
def applyFmt (meta0 : List Char) (caps : FmtCaps) (st0 : BTSt) :
    BTSt × List Char :=
  let st :=
    match caps.genre with
    | some g => { st0 with genre := some g }
    | none => st0
  let st :=
    match caps.track_no with
    | some tn =>
      { st with title := remove_str_from_string st.title tn,
                track_no := some tn.dropLast }
    | none => st
  let st :=
    match caps.artists with
    | some a => { st with author := st.author ++ separate_authors a }
    | none => st
  match caps.title with
  | some rt =>
    let newt := trimL rt ++ trimL (match caps.extra with | some e => e | none => [])
    ({ st with title := newt }, newt)
  | none => (st, meta0)

/-- `reduce(|a, b| format!("{}&{}", a, b))` over the author vector
(src/tag.rs:459-465): `&`-join, `none` when the vector is empty. -/
def joinAmp : List (List Char) → Option (List Char)
  | [] => none
  | x :: xs => some (xs.foldl (fun a b => a ++ '&' :: b) x)

/-- `build_tags` (src/tag.rs:364-471): `None` on an empty title,
otherwise the first matching title format followed by the catch-all
pass, ending with the running title and the `&`-joined author list. -/
def build_tags (meta0 : List Char) : Option Tags :=
  if meta0 = [] then none
  else
    let st0 : BTSt := ⟨meta0, [], none, none, none, none, none⟩
    let stm :=
      match firstFormat meta0 with
      | some caps => applyFmt meta0 caps st0
      | none => (st0, meta0)
    let stF := (capScan stm.2).foldl capStep stm.1
    some ⟨stF.genre, stF.track_no, joinAmp stF.author, some stF.title,
          stF.year, stF.remix, stF.album⟩

/-! ### The statements of `tag` (src/tag.rs:49-225) that the claims
examine: the track-number parse, the artist assembly through a
`HashSet`, and the per-presentation derivation of the final title and
filename. -/

/-- Rust `"…".parse::<u16>()`: optional leading `+`, one or more ASCII
digits, value at most `65535`. -/
def parseU16 (s : List Char) : Option Nat :=
  let s := match s with | '+' :: r => r | r => r
  if s ≠ [] ∧ s.all isDigitA then
    let v := s.foldl (fun a c => a * 10 + (c.toNat - 48)) 0
    if v ≤ 65535 then some v else none
  else none

/-- The statement `tags.get("track_no").map(|n| n.parse::<u16>().ok().unwrap())`
(src/tag.rs:95): `Except.error ()` models the panic of `unwrap` on a
failed parse. -/
def trackParseStep (t : Option (List Char)) : Except Unit (Option Nat) :=
  match t with
  | none => Except.ok none
  | some s =>
    match parseU16 s with
    | some n => Except.ok (some n)
    | none => Except.error ()

/-- Rust `str::split` on a single-character pattern, keeping empty
pieces (used for `author.split("&")` and `new_artist.split(";")`). -/
def splitChar (sep : Char) : List Char → List (List Char)
  | [] => [[]]
  | c :: rest =>
    match splitChar sep rest with
    | [] => [[]]
    | p :: ps => if c = sep then [] :: p :: ps else (c :: p) :: ps

/-- First-seen deduplication: the membership content of the `HashSet`
built at src/tag.rs:99-105. -/
def dedupFirst (l : List (List Char)) : List (List Char) :=
  l.foldl (fun acc x => if x ∈ acc then acc else acc ++ [x]) []

/-- The artist list `multiple` of `tag` (src/tag.rs:99-106) in the case
with no pre-existing artist tag: the `author` tag split on `&`, fed
through a `HashSet` and collected into a `Vec`. The set's iteration
order is unspecified, so it is a parameter `enum`; any permutation of
the deduplicated contents is a legitimate enumeration. -/
def artistListWith (enum : List (List Char) → List (List Char))
    (authorTag : Option (List Char)) : List (List Char) :=
  enum (dedupFirst (match authorTag with
    | some a => splitChar '&' a
    | none => []))

/-- Index of the last occurrence of `c` in `l` (Rust `rfind`). -/
def lastIdx (c : Char) (l : List Char) : Option Nat :=
  ((List.range l.length).filter (fun i => l.get? i = some c)).getLast?

/-- `title_from` (src/tag.rs:249-270): append the featuring clause
(with the final `,` replaced by ` &`) and the remix label to the
title. -/
def title_from (title : Option (List Char)) (featuring_artists : List Char)
    (remix : Option (List Char)) : Option (List Char) :=
  let nt := title
  let nt :=
    if featuring_artists ≠ [] then
      let f :=
        match lastIdx ',' featuring_artists with
        | some i =>
          featuring_artists.take i ++ ' ' :: '&' :: featuring_artists.drop (i + 1)
        | none => featuring_artists
      some ((match title with | some t => t | none => []) ++ ' ' :: '(' :: f ++ [')'])
    else nt
  match remix with
  | some r => some ((match nt with | some t => t | none => []) ++ ' ' :: '[' :: r ++ [']'])
  | none => nt

/-- `filename_from` (src/tag.rs:272-295): choose the proposed filename
from the proposed artist, the pre-existing tag artist and the proposed
title, falling back to the original filename. -/
def filename_from (filename : List Char) (artist old_artist title : Option (List Char)) :
    List Char :=
  match artist with
  | some a =>
    match title with
    | some t => a ++ (" - ".toList) ++ t ++ (".mp3".toList)
    | none => a ++ (".mp3".toList)
  | none =>
    match title with
    | some t =>
      match old_artist with
      | some ta => ta ++ (" - ".toList) ++ t ++ (".mp3".toList)
      | none => t ++ (".mp3".toList)
    | none => filename

/-- ASCII letter, the class `[A-Za-z]`. -/
def isLetterA (c : Char) : Bool :=
  ('A' ≤ c ∧ c ≤ 'Z') ∨ ('a' ≤ c ∧ c ≤ 'z')

/-- Modelled from the spec: the spec describes the album marker as
matching `F[^A-Za-z]C` — an `F` and a `C` separated by one non-letter
character (case-insensitively, to be generous). This definition follows
the spec's words, for comparison against the `F.C` pattern embedded from
src/tag.rs:36. -/
def specMarkerAt (l : List Char) : Bool :=
  match l with
  | f :: m :: c :: _ => lowc f = 'f' ∧ ¬ isLetterA m ∧ lowc c = 'c'
  | _ => false

/-- Modelled from the spec: containment of an `F[^A-Za-z]C` marker. -/
def hasSpecMarker : List Char → Bool
  | [] => false
  | c :: t => specMarkerAt (c :: t) || hasSpecMarker t

/-! ### Supporting lemmas. -/

theorem length_dropWhile_le (p : Char → Bool) :
    ∀ (l : List Char), (l.dropWhile p).length ≤ l.length
  | [] => Nat.le_refl _
  | c :: t => by
    by_cases h : p c
    · rw [List.dropWhile_cons_of_pos h]
      exact Nat.le_succ_of_le (length_dropWhile_le p t)
    · rw [List.dropWhile_cons_of_neg h]

theorem trimL_eq_rdropWhile (l : List Char) :
    trimL l = List.rdropWhile isWs (List.dropWhile isWs l) := rfl

theorem dropWhile_of_rdropWhile_of_dropWhile (l : List Char) :
    List.dropWhile isWs (List.rdropWhile isWs (List.dropWhile isWs l))
      = List.rdropWhile isWs (List.dropWhile isWs l) := by
  cases hB : List.rdropWhile isWs (List.dropWhile isWs l) with
  | nil => rfl
  | cons c t =>
    have hB' : (List.dropWhile isWs (List.dropWhile isWs l).reverse).reverse = c :: t := hB
    have hsplit :
        List.dropWhile isWs l
          = (c :: t) ++ (List.takeWhile isWs (List.dropWhile isWs l).reverse).reverse := by
      have h1 := List.takeWhile_append_dropWhile isWs (List.dropWhile isWs l).reverse
      have h2 := congrArg List.reverse h1
      rw [List.reverse_append, List.reverse_reverse] at h2
      rw [← hB']
      exact h2.symm
    have hkeep : List.dropWhile isWs (List.dropWhile isWs l) = List.dropWhile isWs l :=
      List.dropWhile_idempotent _ _
    by_cases hc : isWs c
    · exfalso
      rw [hsplit, List.cons_append, List.dropWhile_cons_of_pos hc] at hkeep
      have hlen := congrArg List.length hkeep
      have hle := length_dropWhile_le isWs (t ++ (List.takeWhile isWs (List.dropWhile isWs l).reverse).reverse)
      rw [hlen] at hle
      simp at hle
    · rw [List.dropWhile_cons_of_neg hc]

theorem trimL_idem (l : List Char) : trimL (trimL l) = trimL l := by
  rw [trimL_eq_rdropWhile, trimL_eq_rdropWhile,
    dropWhile_of_rdropWhile_of_dropWhile, List.rdropWhile_idempotent]

theorem onePass_length_le : ∀ (s : List Char), (onePass s).length ≤ s.length
  | [] => Nat.le_refl _
  | [_] => Nat.le_refl _
  | a :: b :: rest => by
    by_cases h : isPairBr a b
    · rw [onePass, if_pos h]
      exact Nat.le_succ_of_le (Nat.le_succ_of_le (onePass_length_le rest))
    · rw [onePass, if_neg h]
      exact Nat.succ_le_succ (onePass_length_le (b :: rest))

theorem onePass_eq_of_length :
    ∀ (s : List Char), (onePass s).length = s.length → onePass s = s
  | [] => fun _ => rfl
  | [_] => fun _ => rfl
  | a :: b :: rest => fun hlen => by
    by_cases h : isPairBr a b
    · exfalso
      rw [onePass, if_pos h] at hlen
      have hle := onePass_length_le rest
      rw [hlen] at hle
      simp [List.length_cons] at hle
      omega
    · rw [onePass, if_neg h] at hlen ⊢
      have hlen2 : (onePass (b :: rest)).length = (b :: rest).length := by
        simpa using hlen
      rw [onePass_eq_of_length (b :: rest) hlen2]

theorem onePass_remove_empty_brackets :
    ∀ (n : Nat) (s : List Char), s.length ≤ n →
      onePass (remove_empty_brackets s) = remove_empty_brackets s := by
  intro n
  induction n with
  | zero =>
    intro s hs
    have hnil : s = [] := List.length_eq_zero.mp (Nat.le_zero.mp hs)
    subst hnil
    rw [remove_empty_brackets]
    rw [dif_neg (by simp [onePass])]
    rfl
  | succ n ih =>
    intro s hs
    rw [remove_empty_brackets]
    by_cases h : (onePass s).length < s.length
    · rw [dif_pos h]
      exact ih (onePass s) (Nat.le_of_lt_succ (Nat.lt_of_lt_of_le h hs))
    · rw [dif_neg h]
      have heq : (onePass s).length = s.length :=
        Nat.le_antisymm (onePass_length_le s) (Nat.le_of_not_lt h)
      rw [onePass_eq_of_length s heq, onePass_eq_of_length s heq]

theorem remove_empty_brackets_idem (s : List Char) :
    remove_empty_brackets (remove_empty_brackets s) = remove_empty_brackets s := by
  rw [remove_empty_brackets]
  rw [onePass_remove_empty_brackets s.length s (Nat.le_refl _)]
  rw [dif_neg (Nat.lt_irrefl _)]

theorem collapseWS_idem :
    ∀ (s : List Char) (b : Bool), collapseWS b (collapseWS b s) = collapseWS b s
  | [], _ => rfl
  | c :: rest, b => by
    by_cases h : ((c == ' ') && b) = true
    · rw [collapseWS, if_pos h, collapseWS_idem rest b]
    · rw [collapseWS, if_neg h, collapseWS, if_neg h,
        collapseWS_idem rest (c == ' ')]

theorem stripOccF_of_absent (t : List Char) :
    ∀ (fuel : Nat) (s : List Char), occursIn t s = false → stripOccF t fuel s = s := by
  intro fuel
  induction fuel with
  | zero =>
    intro s _
    cases s <;> rfl
  | succ n ih =>
    intro s h
    cases s with
    | nil => rfl
    | cons c rest =>
      rw [occursIn, Bool.or_eq_false_iff] at h
      have hcond : ¬ (t ≠ [] ∧ leadsWith t (c :: rest) = true) := by
        intro hc
        rw [h.1] at hc
        exact Bool.false_ne_true hc.2
      rw [stripOccF, if_neg hcond, ih rest h.2]

/-! ### The claims. -/

/-- C1: the per-presentation derivation is not idempotent: the loop in
`tag` (src/tag.rs:108-121) feeds the previous presentation's mutated
title back into `title_from`, so presenting twice with the same field
values (title "Song", featuring artist "B", no remix) appends the
featuring clause again, changing both the final title and the proposed
filename. -/
theorem title_update_not_idempotent :
    title_from (title_from (some ("Song".toList)) ("B".toList) none) ("B".toList) none ≠
      title_from (some ("Song".toList)) ("B".toList) none ∧
    title_from (title_from (some ("Song".toList)) ("B".toList) none) ("B".toList) none =
      some ("Song (B) (B)".toList) ∧
    filename_from ("f.mp3".toList) (some ("A".toList)) none
        (title_from (title_from (some ("Song".toList)) ("B".toList) none) ("B".toList) none) ≠
      filename_from ("f.mp3".toList) (some ("A".toList)) none
        (title_from (some ("Song".toList)) ("B".toList) none) := by
  refine ⟨by decide, by decide, by decide⟩

/-- C2: parsing "A & B - Song" yields the ordered author tag "A&B", but
`tag` (src/tag.rs:99-106) pours the artists into a `HashSet` and
collects them back with the set's unspecified iteration order: the
reversing enumeration is a permutation of the deduplicated contents,
and under it `multiple` comes out as ["B", "A"], not ["A", "B"]. -/
theorem artist_order_not_preserved :
    ((build_tags ("A & B - Song".toList)).bind (fun t => t.author))
      = some ("A&B".toList) ∧
    List.Perm ((dedupFirst (splitChar '&' ("A&B".toList))).reverse)
      (dedupFirst (splitChar '&' ("A&B".toList))) ∧
    artistListWith List.reverse (some ("A&B".toList))
      = [("B".toList), ("A".toList)] ∧
    [("B".toList), ("A".toList)] ≠ [("A".toList), ("B".toList)] := by
  refine ⟨by decide, List.reverse_perm _, by decide, by decide⟩

/-- C3: "99999. Band - Song" captures the track prefix "99999", which
does not fit in a `u16`; the statement at src/tag.rs:95 runs
`parse::<u16>().ok().unwrap()` on it, and the `unwrap` of `None`
panics — modelled by `Except.error ()` — instead of dropping the track
and continuing. -/
theorem track_parse_panics :
    ((build_tags ("99999. Band - Song".toList)).bind (fun t => t.track_no))
      = some ("99999".toList) ∧
    trackParseStep (some ("99999".toList)) = Except.error () := by
  refine ⟨by decide, by rfl⟩

/-- C4 (amended): every fragment returned by `separate_authors` is
trimmed — but empty fragments are kept, not discarded. -/
theorem separator_fragments_trimmed (s a : List Char)
    (h : a ∈ separate_authors s) : trimL a = a := by
  unfold separate_authors at h
  rcases List.mem_map.mp h with ⟨b, _, rfl⟩
  exact trimL_idem b

/-- Witness for C4: "A" is a fragment of separating "A & B", and it is
its own trim. -/
theorem separator_fragments_trimmed_w :
    (("A".toList) ∈ separate_authors ("A & B".toList)) ∧
      trimL ("A".toList) = "A".toList :=
  ⟨by decide, separator_fragments_trimmed ("A & B".toList) ("A".toList) (by decide)⟩

/-- C4 counterexample: a leading separator does produce an empty artist
name — `separate_authors` on "&A" returns ["", "A"], which contains the
empty string. -/
theorem separator_keeps_empty_fragment :
    ([] ∈ separate_authors ("&A".toList)) ∧
      separate_authors ("&A".toList) = [[], "A".toList] := by
  refine ⟨by decide, by decide⟩

/-- C5 counterexample: with no artist and no title set, `filename_from`
(src/tag.rs:272-295) returns the original filename, not "-": there is
no template rendering in this code path. -/
theorem empty_fields_filename_not_hyphen :
    filename_from ("orig.mp3".toList) none none none = "orig.mp3".toList ∧
    "orig.mp3".toList ≠ "-".toList := by
  refine ⟨by decide, by decide⟩

/-- C5 (amended): when no field at all is available, the proposed
filename is the unchanged original filename. -/
theorem empty_fields_keep_filename (f : List Char) :
    filename_from f none none none = f := rfl

/-- C6 counterexample: "[FACE]" contains no `F[^A-Za-z]C` marker (the
middle character is the letter "A"), yet parsing
"Band - Song [FACE]" stores the album "E": the embedded pattern is
`F.C` — any single character between `F` and `C`. -/
theorem album_marker_without_spec_pattern :
    ((build_tags ("Band - Song [FACE]".toList)).bind (fun t => t.album))
      = some ("E".toList) ∧
    hasSpecMarker ("[FACE]".toList) = false := by
  refine ⟨by decide, by decide⟩

/-- C6 (amended): the album marker is `F.C` (src/tag.rs:36) — `F`, any
single non-newline character, `C`, case-insensitively: "[F/C Album]"
stores album "Album" (marker token stripped, brackets removed, segment
removed from the title), "[FACE]" stores "E" the same way, and a
bracketed segment without the marker ("[Acme]") stores nothing and
stays in the title. -/
theorem album_marker_any_char :
    ((build_tags ("Band - Song [F/C Album]".toList)).bind (fun t => t.album))
      = some ("Album".toList) ∧
    ((build_tags ("Band - Song [F/C Album]".toList)).bind (fun t => t.title))
      = some ("Song".toList) ∧
    ((build_tags ("Band - Song [FACE]".toList)).bind (fun t => t.title))
      = some ("Song".toList) ∧
    ((build_tags ("Band - Song [Acme]".toList)).bind (fun t => t.album)) = none ∧
    ((build_tags ("Band - Song [Acme]".toList)).bind (fun t => t.title))
      = some ("Song [Acme]".toList) := by
  refine ⟨by decide, by decide, by decide, by decide, by decide⟩

/-- C7: a captured remix whose bracket-stripped lowercase form is
exactly "original mix" is removed from the running title but never
stored (src/tag.rs:430-437); in particular
"Artist - Song [Original Mix]" is parsed (tags are produced), the
stored title is "Song", and `remix` stays unset. -/
theorem original_mix_never_stored :
    (∀ (st : BTSt) (r : List Char),
        lowerL (remove_brackets r) = ("original mix".toList) →
          (capStep st (Cap.remix r)).remix = st.remix ∧
          (capStep st (Cap.remix r)).title = remove_str_from_string st.title r) ∧
    ((build_tags ("Artist - Song [Original Mix]".toList)).bind (fun t => t.remix))
      = none ∧
    ((build_tags ("Artist - Song [Original Mix]".toList)).bind (fun t => t.title))
      = some ("Song".toList) ∧
    (build_tags ("Artist - Song [Original Mix]".toList)).isSome = true := by
  refine ⟨fun st r h => ?_, by decide, by decide, by decide⟩
  rw [capStep]
  rw [if_pos h]
  exact ⟨rfl, rfl⟩

/-- Witness for C7: the hypothesis holds at the concrete capture
"[Original Mix]", and applying the theorem there shows the remix field
is left unset. -/
theorem original_mix_never_stored_w :
    lowerL (remove_brackets ("[Original Mix]".toList)) = ("original mix".toList) ∧
    (capStep ⟨"Song [Original Mix]".toList, [], none, none, none, none, none⟩
        (Cap.remix ("[Original Mix]".toList))).remix = none :=
  ⟨by decide,
    (original_mix_never_stored.1
      ⟨"Song [Original Mix]".toList, [], none, none, none, none, none⟩
      ("[Original Mix]".toList) (by decide)).1⟩

/-- C8 (amended): `remove_str_from_string` removes the occurrences of
the needle in one left-to-right pass and trims; when the needle does
not occur in `s` at all, the result is exactly `s` trimmed, with no
error. (Rejoining the pieces can recreate the needle, so the result may
still contain it.) -/
theorem remove_absent_needle_trims (s t : List Char) (hne : t ≠ [])
    (h : occursIn t s = false) :
    remove_str_from_string s t = trimL s := by
  unfold remove_str_from_string
  rw [stripOccF_of_absent t (s.length + 1) s h]

/-- Witness for C8: "ab" does not occur in "xy", and removal leaves
"xy" trimmed. -/
theorem remove_absent_needle_trims_w :
    (("ab".toList) ≠ ([] : List Char) ∧
      occursIn ("ab".toList) ("xy".toList) = false) ∧
    remove_str_from_string ("xy".toList) ("ab".toList) = trimL ("xy".toList) :=
  ⟨⟨by decide, by decide⟩,
    remove_absent_needle_trims ("xy".toList) ("ab".toList) (by decide) (by decide)⟩

/-- C8 counterexample: removing the needle "ab" from "aabb" rejoins the
leftover pieces "a" and "b" into "ab", so the returned string does
contain an occurrence of the needle. -/
theorem remove_substring_recreates_needle :
    remove_str_from_string ("aabb".toList) ("ab".toList) = "ab".toList ∧
    occursIn ("ab".toList)
      (remove_str_from_string ("aabb".toList) ("ab".toList)) = true := by
  refine ⟨by decide, by decide⟩

/-- C9: both cleanup fixpoints are idempotent — applying
`remove_empty_brackets` or `remove_duplicate_whitespace` to its own
output returns that output unchanged, for every input. -/
theorem cleanup_functions_idempotent (s : List Char) :
    remove_empty_brackets (remove_empty_brackets s) = remove_empty_brackets s ∧
    remove_duplicate_whitespace (remove_duplicate_whitespace s)
      = remove_duplicate_whitespace s :=
  ⟨remove_empty_brackets_idem s, collapseWS_idem s false⟩

/-- C10: when only a title was extracted but the file's existing tags
carry an artist, the proposed filename is "artist - title.mp3" built
from the tag artist (src/tag.rs:284-289); with neither artist nor
title, the original filename is returned unchanged
(src/tag.rs:292-294). -/
theorem filename_old_artist_fallback (f a t : List Char) :
    filename_from f none (some a) (some t)
      = a ++ (" - ".toList) ++ t ++ (".mp3".toList) ∧
    filename_from f none none none = f :=
  ⟨rfl, rfl⟩

end Tapeworm
